import Mathlib

/-!
Verification development for a fixed-capacity memory arena
(`FixedMemoryResource`, src/fixed_memory_resource.{h,cpp}) paired with a
FIFO queue over singly linked nodes (`Queue`, src/queue.h).

Shallow embedding conventions:
* machine addresses and sizes are `Nat`; the pool base pointer
  `memory_pool_` is the natural number `memory_pool_` (0 models nullptr);
  the address of a block at offset `o` is `memory_pool_ + o`, matching the
  C++ `static_cast<char*>(memory_pool_) + o` and the
  `reinterpret_cast<uintptr_t>` alignment check;
* `std::map<void*, size_t> allocated_blocks_` is an association list of
  `(address, size)` pairs kept sorted by strictly increasing address;
* `std::multimap<size_t, void*> free_blocks_` is an association list of
  `(size, address)` pairs kept sorted by non-decreasing size, with new
  entries of an equal key inserted after the existing ones, matching
  `std::multimap::insert`;
* a C++ member function that can throw is embedded as a function returning
  `Except Err _ × State`: the returned state is the object's state after
  the call, whether it returned normally or threw.
-/

/-- The error taxonomy of the spec (section 7): `outOfMemory` embeds
`std::bad_alloc`, `invalidFree` embeds `std::invalid_argument`,
`emptyQueue` and `dereferenceError` embed the two `std::runtime_error`
cases thrown by `Queue`. -/
inductive Err where
  | outOfMemory
  | invalidFree
  | emptyQueue
  | dereferenceError
deriving DecidableEq, Repr

/-- Lookup in a `std::map<void*, size_t>` modelled as an association list:
`allocated_blocks_.find(ptr)` followed by comparison with `end()`. -/
def mapFind (k : Nat) : List (Nat × Nat) → Option Nat
  | [] => none
  | (k', v') :: rest => if k = k' then some v' else mapFind k rest

/-- `allocated_blocks_[ptr] = bytes`: ordered insert that overwrites an
existing entry with the same key, as `std::map::operator[]` does. -/
def mapInsert (k v : Nat) : List (Nat × Nat) → List (Nat × Nat)
  | [] => [(k, v)]
  | (k', v') :: rest =>
    if k < k' then (k, v) :: (k', v') :: rest
    else if k = k' then (k, v) :: rest
    else (k', v') :: mapInsert k v rest

/-- `allocated_blocks_.erase(it)` for the iterator found by `find`:
removes the (unique) entry with the given key. -/
def mapErase (k : Nat) : List (Nat × Nat) → List (Nat × Nat)
  | [] => []
  | (k', v') :: rest => if k = k' then rest else (k', v') :: mapErase k rest

/-- `free_blocks_.insert({bytes, ptr})` on the `std::multimap`: the new
pair goes after all entries whose key is ≤ `k` and before the first entry
whose key is > `k` (std::multimap inserts at the upper bound). -/
def mmInsert (k v : Nat) : List (Nat × Nat) → List (Nat × Nat)
  | [] => [(k, v)]
  | (k', v') :: rest =>
    if k < k' then (k, v) :: (k', v') :: rest
    else (k', v') :: mmInsert k v rest

/-- The loop body of `FixedMemoryResource::find_free_block` on the
free-blocks list: starting from `lower_bound(bytes)` (on the size-sorted
list this is the same as skipping every entry whose size is `< bytes`),
return the first entry whose recorded size is at least `bytes` and whose
address is a multiple of `alignment`, removing it from the list. -/
def removeFirstFit (bytes alignment : Nat) :
    List (Nat × Nat) → Option (Nat × List (Nat × Nat))
  | [] => none
  | (sz, a) :: rest =>
    if bytes ≤ sz ∧ a % alignment = 0 then some (a, rest)
    else
      match removeFirstFit bytes alignment rest with
      | some (p, rest') => some (p, (sz, a) :: rest')
      | none => none

/-- State of a `FixedMemoryResource` (src/fixed_memory_resource.h lines
10–27): pool base pointer, pool size, bump offset, the map of live blocks
(address → size) and the multimap of freed blocks (size → address). -/
structure FixedMemoryResource where
  memory_pool_ : Nat
  pool_size_ : Nat
  current_offset_ : Nat
  allocated_blocks_ : List (Nat × Nat)
  free_blocks_ : List (Nat × Nat)
deriving DecidableEq, Repr

namespace FixedMemoryResource

/-- `FixedMemoryResource::FixedMemoryResource(size_t size)`: fresh pool of
`size` bytes at base address `base`, offset 0, empty block maps. -/
def mk0 (base size : Nat) : FixedMemoryResource :=
  { memory_pool_ := base, pool_size_ := size, current_offset_ := 0,
    allocated_blocks_ := [], free_blocks_ := [] }

/-- `FixedMemoryResource::find_free_block(bytes, alignment)`
(fixed_memory_resource.cpp lines 119–134): returns the reusable address
and the state after erasing it from `free_blocks_`, or `none` (nullptr)
with the state untouched. -/
def find_free_block (σ : FixedMemoryResource) (bytes alignment : Nat) :
    Option Nat × FixedMemoryResource :=
  match removeFirstFit bytes alignment σ.free_blocks_ with
  | some (p, fb) => (some p, { σ with free_blocks_ := fb })
  | none => (none, σ)

/-- `FixedMemoryResource::do_allocate(bytes, alignment)`
(fixed_memory_resource.cpp lines 55–86). Reuse path: a fitting free block
is erased from `free_blocks_` and re-recorded live with the requested
size. Bump path: `aligned_offset = (current + alignment - 1) / alignment
* alignment`; throws `bad_alloc` when `aligned_offset + bytes >
pool_size_`, otherwise records the live entry at `memory_pool_ +
aligned_offset` and advances the offset. -/
def do_allocate (σ : FixedMemoryResource) (bytes alignment : Nat) :
    Except Err Nat × FixedMemoryResource :=
  match find_free_block σ bytes alignment with
  | (some ptr, σ1) =>
    (.ok ptr,
     { σ1 with allocated_blocks_ := mapInsert ptr bytes σ1.allocated_blocks_ })
  | (none, σ1) =>
    let aligned_offset := (σ1.current_offset_ + alignment - 1) / alignment * alignment
    if aligned_offset + bytes > σ1.pool_size_ then
      (.error .outOfMemory, σ1)
    else
      let ptr := σ1.memory_pool_ + aligned_offset
      (.ok ptr,
       { σ1 with
          allocated_blocks_ := mapInsert ptr bytes σ1.allocated_blocks_,
          current_offset_ := aligned_offset + bytes })

/-- `FixedMemoryResource::do_deallocate(ptr, bytes, alignment)`
(fixed_memory_resource.cpp lines 89–101): throws `invalid_argument` when
`ptr` is not a key of `allocated_blocks_`; otherwise erases the live
entry and inserts `{bytes, ptr}` into `free_blocks_`. The alignment
argument is ignored by the source. -/
def do_deallocate (σ : FixedMemoryResource) (ptr bytes _alignment : Nat) :
    Except Err Unit × FixedMemoryResource :=
  match mapFind ptr σ.allocated_blocks_ with
  | none => (.error .invalidFree, σ)
  | some _ =>
    (.ok (),
     { σ with
        allocated_blocks_ := mapErase ptr σ.allocated_blocks_,
        free_blocks_ := mmInsert bytes ptr σ.free_blocks_ })

/-- The statistics snapshot of the spec (sections 4.1 and 6), as printed
by `print_stats` (fixed_memory_resource.cpp lines 110–116) and exposed by
`get_allocated_count` / `get_free_count` / `get_current_offset`. -/
structure Stats where
  capacity : Nat
  used : Nat
  live_count : Nat
  free_count : Nat
deriving DecidableEq, Repr

/-- `stats()` snapshot: `{pool_size_, current_offset_,
allocated_blocks_.size(), free_blocks_.size()}`. -/
def stats (σ : FixedMemoryResource) : Stats :=
  { capacity := σ.pool_size_, used := σ.current_offset_,
    live_count := σ.allocated_blocks_.length,
    free_count := σ.free_blocks_.length }

/-- The moved-from state left by the move constructor
(fixed_memory_resource.cpp lines 20–31) and move assignment (lines
34–52): `memory_pool_ = nullptr`, `pool_size_ = 0`, `current_offset_ =
0`, and both block maps emptied by `std::move`. -/
def movedFrom (_σ : FixedMemoryResource) : FixedMemoryResource :=
  { memory_pool_ := 0, pool_size_ := 0, current_offset_ := 0,
    allocated_blocks_ := [], free_blocks_ := [] }

/-- Move constructor (fixed_memory_resource.cpp lines 20–31): the new
object takes every field of `other`; `other` is zeroed. -/
def moveConstruct (other : FixedMemoryResource) :
    FixedMemoryResource × FixedMemoryResource :=
  (other, movedFrom other)

/-- Move assignment, `this != &other` branch (fixed_memory_resource.cpp
lines 34–52): `this` releases its own pool and takes every field of
`other`; `other` is zeroed. Returns `(new this, new other)`. -/
def moveAssign (_this other : FixedMemoryResource) :
    FixedMemoryResource × FixedMemoryResource :=
  (other, movedFrom other)

end FixedMemoryResource

/-!
Queue model (src/queue.h). The singly linked chain from `head_` to
`tail_` is represented by the list of its nodes front-to-back; `tail_` is
the last list element and `head_` the first, `nullptr` being the empty
list. `size_` is kept as its own field exactly as in the source.
-/

/-- State of a `Queue<T>` (queue.h lines 12–35): the node chain from
`head_` and the element counter `size_`. -/
structure Queue (T : Type) where
  chain : List T
  size_ : Nat
deriving DecidableEq, Repr

namespace Queue

/-- `Queue::Queue(mr)`: empty queue. -/
def mk0 (T : Type) : Queue T := { chain := [], size_ := 0 }

/-- `Queue::empty()` (queue.h lines 261–263): `size_ == 0`. -/
def empty (q : Queue T) : Bool := q.size_ = 0

/-- `Queue::size()` (queue.h lines 266–268). -/
def size (q : Queue T) : Nat := q.size_

/-- `Queue::push(value)` (queue.h lines 169–201): allocate a node,
construct it with `value` and null successor, link it after `tail_`
(or make it the whole chain when empty), increment `size_`. -/
def push (q : Queue T) (v : T) : Queue T :=
  { chain := q.chain ++ [v], size_ := q.size_ + 1 }

/-- `Queue::pop()` (queue.h lines 204–228): throws when `empty()`;
otherwise advances `head_` to its successor (`chain.tail`), destroys and
deallocates the old head, and decrements `size_`. -/
def pop (q : Queue T) : Except Err (Queue T) :=
  if q.size_ = 0 then .error .emptyQueue
  else .ok { chain := q.chain.tail, size_ := q.size_ - 1 }

/-- An operation of the trace semantics for section 8's push/pop
property. -/
inductive Op (T : Type) where
  | push (v : T)
  | pop
deriving DecidableEq, Repr

/-- Run a sequence of `push`/`pop` calls; a `pop` that throws
`EmptyQueueError` is caught by the caller and leaves the queue exactly
as it was (the source throws before any mutation). -/
def run (q : Queue T) : List (Op T) → Queue T
  | [] => q
  | .push v :: rest => run (q.push v) rest
  | .pop :: rest =>
    match q.pop with
    | .ok q2 => run q2 rest
    | .error _ => run q rest

/-- Number of pushes in a call sequence. -/
def countPush : List (Op T) → Nat
  | [] => 0
  | .push _ :: rest => countPush rest + 1
  | .pop :: rest => countPush rest

/-- Number of pops in a call sequence that succeed when the sequence is
run from state `q`. -/
def countPopOk (q : Queue T) : List (Op T) → Nat
  | [] => 0
  | .push v :: rest => countPopOk (q.push v) rest
  | .pop :: rest =>
    match q.pop with
    | .ok q2 => countPopOk q2 rest + 1
    | .error _ => countPopOk q rest

/-- A `Queue<T>::Iterator` (queue.h lines 40–96): `current_` points at a
node of the chain or is null. The iterator is represented by the suffix
of the chain starting at `current_`; the empty suffix is the null
(end) iterator. Within one chain, distinct nodes give suffixes of
distinct lengths, so suffix equality coincides with the source's
pointer comparison `current_ == other.current_`. -/
def Iterator (T : Type) := List T

/-- `Iterator::operator*` (queue.h lines 56–61): throws on the end
iterator, otherwise returns the current node's data. -/
def Iterator.deref : Iterator T → Except Err T
  | [] => .error .dereferenceError
  | v :: _ => .ok v

/-- `Iterator::operator++` (queue.h lines 73–78): advances to the next
node when not at the end; advancing the end iterator is a no-op. -/
def Iterator.inc : Iterator T → Iterator T
  | [] => []
  | _ :: rest => rest

/-- `Queue::begin()` (queue.h lines 278–280): iterator at `head_`. -/
def begin (q : Queue T) : Iterator T := q.chain

/-- `Queue::end()` (queue.h lines 283–285): the null iterator. -/
def «end» (_q : Queue T) : Iterator T := ([] : List T)

end Queue

/-!
Queue model with allocator binding (for the move operations). Each node
is tagged with the identity of the `memory_resource` its storage was
allocated from; `alloc` is the resource the queue's
`polymorphic_allocator` is bound to.
-/

/-- A `Queue<T>` together with its allocator binding: `alloc` is the
identity of the bound `memory_resource`, and every chain node carries the
identity of the resource its storage came from. -/
structure QueueRes (T : Type) where
  chain : List (Nat × T)
  size_ : Nat
  alloc : Nat
deriving DecidableEq, Repr

namespace QueueRes

/-- `Queue::push` through the queue's own allocator: the new node's
storage comes from the bound resource `alloc`. -/
def push (q : QueueRes T) (v : T) : QueueRes T :=
  { q with chain := q.chain ++ [(q.alloc, v)], size_ := q.size_ + 1 }

/-- `Queue::operator=(Queue&&)`, `this != &other` branch (queue.h lines
148–166): the destination clears its old chain, then takes `head_`,
`tail_`, `size_` from the source; its `allocator_` is left unchanged
(source comment: the allocator stays bound to its memory_resource). The
source is left with null `head_`/`tail_` and `size_ = 0`, keeping its own
allocator. Returns `(new destination, new source)`. -/
def moveAssign (dst src : QueueRes T) : QueueRes T × QueueRes T :=
  ({ chain := src.chain, size_ := src.size_, alloc := dst.alloc },
   { chain := [], size_ := 0, alloc := src.alloc })

end QueueRes

/-!
Coupled model: a `Queue<T>` whose `polymorphic_allocator` is bound to one
`FixedMemoryResource`. `push` allocates one node of `nodeSize` bytes with
`nodeAlign` alignment through `do_allocate` (what
`allocator_.allocate(1)` forwards to); `pop` returns the head node's
storage through `do_deallocate`. Chain entries are `(address, value)`.
-/

/-- A queue drawing its node storage from a `FixedMemoryResource`. -/
structure ArenaQueue (T : Type) where
  arena : FixedMemoryResource
  chain : List (Nat × T)
  size_ : Nat
deriving DecidableEq, Repr

namespace ArenaQueue

/-- `Queue::push(value)` on an arena-backed queue (queue.h lines 169–185):
`allocator_.allocate(1)` forwards one node of `nodeSize` bytes with
`nodeAlign` alignment to `do_allocate`; on success the node is linked at
the tail and `size_` is incremented; a `bad_alloc` from the arena
propagates, leaving the queue fields untouched. -/
def push (nodeSize nodeAlign : Nat) (q : ArenaQueue T) (v : T) :
    Except Err Unit × ArenaQueue T :=
  match FixedMemoryResource.do_allocate q.arena nodeSize nodeAlign with
  | (.ok ptr, ar) =>
    (.ok (), { arena := ar, chain := q.chain ++ [(ptr, v)], size_ := q.size_ + 1 })
  | (.error e, ar) =>
    (.error e, { arena := ar, chain := q.chain, size_ := q.size_ })

/-- `Queue::pop()` on an arena-backed queue (queue.h lines 204–228):
throws `EmptyQueueError` before any mutation when `size_ == 0`;
otherwise advances `head_`, then deallocates the old head node through
the arena and decrements `size_`. (A throwing `do_deallocate` would
escape between the head advance and the decrement, exactly as in the
source; it cannot occur in states reachable from an empty queue.) -/
def pop (nodeSize nodeAlign : Nat) (q : ArenaQueue T) :
    Except Err Unit × ArenaQueue T :=
  if q.size_ = 0 then (.error .emptyQueue, q)
  else
    match q.chain with
    | [] => (.error .emptyQueue, q)
    | (ptr, _) :: rest =>
      match FixedMemoryResource.do_deallocate q.arena ptr nodeSize nodeAlign with
      | (.ok _, ar) => (.ok (), { arena := ar, chain := rest, size_ := q.size_ - 1 })
      | (.error e, ar) => (.error e, { arena := ar, chain := rest, size_ := q.size_ })

/-- Operations of a push/pop trace on an arena-backed queue. -/
inductive Op (T : Type) where
  | push (v : T)
  | pop
deriving DecidableEq, Repr

/-- Run a push/pop sequence on an arena-backed queue; each call's
post-state (normal or throwing) is threaded to the next call. -/
def run (nodeSize nodeAlign : Nat) (q : ArenaQueue T) : List (Op T) → ArenaQueue T
  | [] => q
  | .push v :: rest => run nodeSize nodeAlign (push nodeSize nodeAlign q v).2 rest
  | .pop :: rest => run nodeSize nodeAlign (pop nodeSize nodeAlign q).2 rest

end ArenaQueue

/-!
Byte-level trace semantics of the arena alone, for the lifetime
properties: which bytes of the pool are covered by some live or free
bookkeeping entry, and how that set evolves over a call sequence.
-/

/-- One external call on a `FixedMemoryResource`. -/
inductive ArenaOp where
  | alloc (bytes alignment : Nat)
  | dealloc (ptr bytes alignment : Nat)
deriving DecidableEq, Repr

namespace FixedMemoryResource

/-- Run a call sequence; each call's post-state (normal or throwing) is
threaded to the next call. -/
def runArena (σ : FixedMemoryResource) : List ArenaOp → FixedMemoryResource
  | [] => σ
  | .alloc b a :: rest => runArena (do_allocate σ b a).2 rest
  | .dealloc p b a :: rest => runArena (do_deallocate σ p b a).2 rest

/-- Byte `b` is tracked by the arena's bookkeeping: it lies in the byte
range of some live entry of `allocated_blocks_` or of some free entry of
`free_blocks_`. -/
def trackedB (σ : FixedMemoryResource) (b : Nat) : Bool :=
  σ.allocated_blocks_.any (fun e => e.1 ≤ b && b < e.1 + e.2) ||
  σ.free_blocks_.any (fun e => e.2 ≤ b && b < e.2 + e.1)

/-- A call is contract-conformant in state `σ`: an `alloc` passes a
positive alignment (the `memory_resource` contract requires a power of
two), and a `dealloc` passes the size the registry records for the
address — the size it was allocated with, as the spec's deallocate
contract requires. A `dealloc` of an unknown address is allowed (the
arena rejects it without mutation). -/
def conformantStep (σ : FixedMemoryResource) : ArenaOp → Bool
  | .alloc _ a => 0 < a
  | .dealloc p b _ =>
    match mapFind p σ.allocated_blocks_ with
    | some sz => b = sz
    | none => true

/-- Every call of the sequence is contract-conformant in the state it
runs in. -/
def conformantRun (σ : FixedMemoryResource) : List ArenaOp → Bool
  | [] => true
  | .alloc b a :: rest =>
    conformantStep σ (.alloc b a) && conformantRun (do_allocate σ b a).2 rest
  | .dealloc p b a :: rest =>
    conformantStep σ (.dealloc p b a) && conformantRun (do_deallocate σ p b a).2 rest

end FixedMemoryResource

/-!
Spec-side definitions, written from the specification's words (section
4.1) for comparison with the source-derived `do_allocate`.
-/

/-- Spec-side: `offset` rounded up to a multiple of `alignment`
(the spec's `aligned_offset = ceil(offset / alignment) * alignment`). -/
def roundUpTo (c a : Nat) : Nat :=
  if c % a = 0 then c else (c / a + 1) * a

/-- Spec-side: a free-index entry `(size_entry, address)` can satisfy a
request of `bytes` bytes with `alignment` alignment: `size_entry ≥ bytes`
and the address already satisfies the alignment. -/
def fitsEntry (bytes alignment : Nat) (e : Nat × Nat) : Bool :=
  bytes ≤ e.1 && e.2 % alignment = 0

/-!
Helper lemmas about the embedded container operations.
-/

theorem aligned_ge (c a : Nat) (ha : 0 < a) : c ≤ (c + a - 1) / a * a := by
  have h := Nat.div_add_mod (c + a - 1) a
  have h2 : (c + a - 1) % a < a := Nat.mod_lt _ ha
  have h3 : a * ((c + a - 1) / a) = (c + a - 1) / a * a := Nat.mul_comm _ _
  omega

theorem bump_aligned_eq (c a : Nat) (ha : 0 < a) :
    (c + a - 1) / a * a = roundUpTo c a := by
  have hq := Nat.div_add_mod c a
  have hr : c % a < a := Nat.mod_lt _ ha
  unfold roundUpTo
  by_cases h0 : c % a = 0
  · simp only [h0, if_pos]
    have h3 : a * (c / a) = c / a * a := Nat.mul_comm _ _
    have h1 : c + a - 1 = (a - 1) + c / a * a := by omega
    rw [h1, Nat.add_mul_div_right _ _ ha, Nat.div_eq_of_lt (by omega : a - 1 < a)]
    have h4 : (0 + c / a) * a = c / a * a := by ring
    omega
  · simp only [if_neg h0]
    have h3 : (c / a + 1) * a = a * (c / a) + a := by ring
    have h1 : c + a - 1 = (c % a - 1) + (c / a + 1) * a := by omega
    rw [h1, Nat.add_mul_div_right _ _ ha, Nat.div_eq_of_lt (by omega : c % a - 1 < a)]
    have h4 : (0 + (c / a + 1)) * a = (c / a + 1) * a := by ring
    omega

theorem mem_mapInsert {x : Nat × Nat} {k v : Nat} {l : List (Nat × Nat)}
    (h : x ∈ mapInsert k v l) : x = (k, v) ∨ x ∈ l := by
  induction l with
  | nil => simpa [mapInsert] using h
  | cons e rest ih =>
    simp only [mapInsert] at h
    split at h
    · simpa using h
    · split at h
      · rcases List.mem_cons.mp h with h1 | h1
        · exact Or.inl h1
        · exact Or.inr (List.mem_cons_of_mem _ h1)
      · rcases List.mem_cons.mp h with h1 | h1
        · exact Or.inr (h1 ▸ List.mem_cons_self _ _)
        · rcases ih h1 with h2 | h2
          · exact Or.inl h2
          · exact Or.inr (List.mem_cons_of_mem _ h2)

theorem mem_mapErase {x : Nat × Nat} {k : Nat} {l : List (Nat × Nat)}
    (h : x ∈ mapErase k l) : x ∈ l := by
  induction l with
  | nil => simp [mapErase] at h
  | cons e rest ih =>
    simp only [mapErase] at h
    split at h
    · exact List.mem_cons_of_mem _ h
    · rcases List.mem_cons.mp h with h1 | h1
      · exact h1 ▸ List.mem_cons_self _ _
      · exact List.mem_cons_of_mem _ (ih h1)

theorem mem_mmInsert {x : Nat × Nat} {k v : Nat} {l : List (Nat × Nat)}
    (h : x ∈ mmInsert k v l) : x = (k, v) ∨ x ∈ l := by
  induction l with
  | nil => simpa [mmInsert] using h
  | cons e rest ih =>
    simp only [mmInsert] at h
    split at h
    · simpa using h
    · rcases List.mem_cons.mp h with h1 | h1
      · exact Or.inr (h1 ▸ List.mem_cons_self _ _)
      · rcases ih h1 with h2 | h2
        · exact Or.inl h2
        · exact Or.inr (List.mem_cons_of_mem _ h2)

theorem self_mem_mmInsert (k v : Nat) (l : List (Nat × Nat)) :
    (k, v) ∈ mmInsert k v l := by
  induction l with
  | nil => simp [mmInsert]
  | cons e rest ih =>
    simp only [mmInsert]
    split
    · exact List.mem_cons_self _ _
    · exact List.mem_cons_of_mem _ ih

theorem mapFind_some_mem {k v : Nat} {l : List (Nat × Nat)}
    (h : mapFind k l = some v) : (k, v) ∈ l := by
  induction l with
  | nil => simp [mapFind] at h
  | cons e rest ih =>
    simp only [mapFind] at h
    split at h
    · rename_i heq
      cases e with
      | mk k' v' =>
        simp only at heq
        simp only [Option.some.injEq] at h
        subst heq; subst h
        exact List.mem_cons_self _ _
    · exact List.mem_cons_of_mem _ (ih h)

theorem mapFind_mapInsert_self (k v : Nat) (l : List (Nat × Nat)) :
    mapFind k (mapInsert k v l) = some v := by
  induction l with
  | nil => simp [mapInsert, mapFind]
  | cons e rest ih =>
    simp only [mapInsert]
    split
    · simp [mapFind]
    · split
      · simp [mapFind]
      · rename_i h1 h2
        cases e with
        | mk k' v' =>
          simp only at h1 h2
          simp only [mapFind, if_neg h2]
          exact ih

theorem mapFind_eq_none_of_forall {k : Nat} {l : List (Nat × Nat)}
    (h : ∀ e ∈ l, k ≠ e.1) : mapFind k l = none := by
  induction l with
  | nil => simp [mapFind]
  | cons e rest ih =>
    simp only [mapFind]
    rw [if_neg (h e (List.mem_cons_self _ _))]
    exact ih fun e' he' => h e' (List.mem_cons_of_mem _ he')

theorem mapFind_mapErase_self {k : Nat} {l : List (Nat × Nat)}
    (hwf : List.Pairwise (fun x y : Nat × Nat => x.1 < y.1) l) :
    mapFind k (mapErase k l) = none := by
  induction l with
  | nil => simp [mapErase, mapFind]
  | cons e rest ih =>
    rcases List.pairwise_cons.mp hwf with ⟨hlt, hrest⟩
    simp only [mapErase]
    split
    · rename_i heq
      exact mapFind_eq_none_of_forall fun e' he' => by
        have := hlt e' he'
        omega
    · rename_i hne
      simp only [mapFind, if_neg hne]
      exact ih hrest

theorem removeFirstFit_none_iff (b a : Nat) (l : List (Nat × Nat)) :
    removeFirstFit b a l = none ↔ ∀ e ∈ l, ¬(b ≤ e.1 ∧ e.2 % a = 0) := by
  induction l with
  | nil => simp [removeFirstFit]
  | cons e rest ih =>
    cases e with
    | mk sz ad =>
      simp only [removeFirstFit]
      split
      · rename_i hfit
        constructor
        · intro h; cases h
        · intro h
          exact absurd hfit (h (sz, ad) (List.mem_cons_self _ _))
      · rename_i hnofit
        constructor
        · intro h
          cases hr : removeFirstFit b a rest with
          | none =>
            intro e' he'
            rcases List.mem_cons.mp he' with h1 | h1
            · subst h1; exact hnofit
            · exact (ih.mp hr) e' h1
          | some pr =>
            rw [hr] at h
            cases pr with
            | mk p rest' => simp at h
        · intro h
          cases hr : removeFirstFit b a rest with
          | none => simp
          | some pr =>
            exfalso
            cases pr with
            | mk p rest' =>
              have : ∀ e' ∈ rest, ¬(b ≤ e'.1 ∧ e'.2 % a = 0) :=
                fun e' he' => h e' (List.mem_cons_of_mem _ he')
              rw [ih.mpr this] at hr
              cases hr

theorem removeFirstFit_some {b a p : Nat} {l l2 : List (Nat × Nat)}
    (h : removeFirstFit b a l = some (p, l2)) :
    ∃ l1 s l3, l = l1 ++ (s, p) :: l3 ∧ l2 = l1 ++ l3 ∧ b ≤ s ∧ p % a = 0 ∧
      ∀ e ∈ l1, ¬(b ≤ e.1 ∧ e.2 % a = 0) := by
  induction l generalizing l2 with
  | nil => simp [removeFirstFit] at h
  | cons e rest ih =>
    cases e with
    | mk sz ad =>
      simp only [removeFirstFit] at h
      split at h
      · rename_i hfit
        simp only [Option.some.injEq, Prod.mk.injEq] at h
        obtain ⟨hp, hl⟩ := h
        subst hp; subst hl
        exact ⟨[], sz, rest, by simp, by simp, hfit.1, hfit.2, by simp⟩
      · rename_i hnofit
        cases hr : removeFirstFit b a rest with
        | none => rw [hr] at h; cases h
        | some pr =>
          cases pr with
          | mk p' rest' =>
            rw [hr] at h
            simp only [Option.some.injEq, Prod.mk.injEq] at h
            obtain ⟨hp, hl2⟩ := h
            subst hp
            obtain ⟨l1, s, l3, he1, he2, hbs, hpa, hnf⟩ := ih hr
            refine ⟨(sz, ad) :: l1, s, l3, by simp [he1], by simp [← hl2, he2], hbs, hpa, ?_⟩
            intro e' he'
            rcases List.mem_cons.mp he' with h1 | h1
            · subst h1; exact hnofit
            · exact hnf e' h1

theorem removeFirstFit_isSome_of_exists {b a : Nat} {l : List (Nat × Nat)}
    (h : ∃ e ∈ l, b ≤ e.1 ∧ e.2 % a = 0) :
    ∃ p l2, removeFirstFit b a l = some (p, l2) := by
  cases hr : removeFirstFit b a l with
  | none =>
    obtain ⟨e, he, hfit⟩ := h
    exact absurd hfit ((removeFirstFit_none_iff b a l).mp hr e he)
  | some pr => exact ⟨pr.1, pr.2, rfl⟩

namespace FixedMemoryResource

theorem do_allocate_fields (σ : FixedMemoryResource) (b a : Nat) :
    ((do_allocate σ b a).2).memory_pool_ = σ.memory_pool_ ∧
    ((do_allocate σ b a).2).pool_size_ = σ.pool_size_ := by
  unfold do_allocate find_free_block
  cases hr : removeFirstFit b a σ.free_blocks_ with
  | none =>
    simp only []
    split
    · simp
    · simp
  | some pr =>
    cases pr with
    | mk p fb => simp

theorem do_allocate_offset_mono (σ : FixedMemoryResource) (b a : Nat) (ha : 0 < a) :
    σ.current_offset_ ≤ ((do_allocate σ b a).2).current_offset_ := by
  unfold do_allocate find_free_block
  cases hr : removeFirstFit b a σ.free_blocks_ with
  | none =>
    simp only []
    split
    · simp
    · simp only []
      have := aligned_ge σ.current_offset_ a ha
      omega
  | some pr =>
    cases pr with
    | mk p fb => simp

theorem do_allocate_reuse_offset (σ : FixedMemoryResource) (b a : Nat)
    (h : (find_free_block σ b a).1.isSome = true) :
    ((do_allocate σ b a).2).current_offset_ = σ.current_offset_ := by
  unfold do_allocate
  unfold find_free_block at h ⊢
  cases hr : removeFirstFit b a σ.free_blocks_ with
  | none => rw [hr] at h; simp at h
  | some pr =>
    cases pr with
    | mk p fb => simp

theorem do_deallocate_frame (σ : FixedMemoryResource) (p b a : Nat) :
    ((do_deallocate σ p b a).2).current_offset_ = σ.current_offset_ ∧
    ((do_deallocate σ p b a).2).memory_pool_ = σ.memory_pool_ ∧
    ((do_deallocate σ p b a).2).pool_size_ = σ.pool_size_ := by
  unfold do_deallocate
  cases hf : mapFind p σ.allocated_blocks_ with
  | none => simp
  | some sz => simp

end FixedMemoryResource

namespace FixedMemoryResource

theorem trackedB_false_iff (σ : FixedMemoryResource) (x : Nat) :
    trackedB σ x = false ↔
      (∀ e ∈ σ.allocated_blocks_, ¬(e.1 ≤ x ∧ x < e.1 + e.2)) ∧
      (∀ e ∈ σ.free_blocks_, ¬(e.2 ≤ x ∧ x < e.2 + e.1)) := by
  simp [trackedB, List.any_eq_false, -not_and]

theorem tracked_alloc_step (σ : FixedMemoryResource) (b a x : Nat) (ha : 0 < a)
    (h1 : trackedB σ x = false) (h2 : x < σ.memory_pool_ + σ.current_offset_) :
    trackedB (do_allocate σ b a).2 x = false ∧
    x < ((do_allocate σ b a).2).memory_pool_ + ((do_allocate σ b a).2).current_offset_ := by
  obtain ⟨hA, hF⟩ := (trackedB_false_iff σ x).mp h1
  unfold do_allocate find_free_block
  cases hr : removeFirstFit b a σ.free_blocks_ with
  | some pr =>
    cases pr with
    | mk p fb =>
      simp only []
      obtain ⟨l1, s, l3, hsplit, hfb, hbs, hpa, hnf⟩ := removeFirstFit_some hr
      constructor
      · rw [trackedB_false_iff]
        constructor
        · intro e he
          rcases mem_mapInsert he with h3 | h3
          · subst h3
            intro hcov
            have hmem : (s, p) ∈ σ.free_blocks_ := by
              rw [hsplit]; exact List.mem_append_right _ (List.mem_cons_self _ _)
            exact hF (s, p) hmem ⟨hcov.1, by omega⟩
          · exact hA e h3
        · intro e he
          apply hF e
          rw [hsplit]
          rw [hfb] at he
          rcases List.mem_append.mp he with h3 | h3
          · exact List.mem_append_left _ h3
          · exact List.mem_append_right _ (List.mem_cons_of_mem _ h3)
      · simpa using h2
  | none =>
    simp only []
    split
    · exact ⟨(trackedB_false_iff σ x).mpr ⟨hA, hF⟩, h2⟩
    · simp only []
      have hge := aligned_ge σ.current_offset_ a ha
      constructor
      · rw [trackedB_false_iff]
        refine ⟨?_, fun e he => hF e he⟩
        intro e he
        rcases mem_mapInsert he with h3 | h3
        · subst h3
          intro hcov
          have := hcov.1
          omega
        · exact hA e h3
      · omega

theorem tracked_dealloc_step (σ : FixedMemoryResource) (p b a x : Nat)
    (hc : conformantStep σ (.dealloc p b a) = true)
    (h1 : trackedB σ x = false) (h2 : x < σ.memory_pool_ + σ.current_offset_) :
    trackedB (do_deallocate σ p b a).2 x = false ∧
    x < ((do_deallocate σ p b a).2).memory_pool_ + ((do_deallocate σ p b a).2).current_offset_ := by
  obtain ⟨hA, hF⟩ := (trackedB_false_iff σ x).mp h1
  unfold do_deallocate
  cases hf : mapFind p σ.allocated_blocks_ with
  | none => exact ⟨(trackedB_false_iff σ x).mpr ⟨hA, hF⟩, h2⟩
  | some sz =>
    have hb : b = sz := by
      simp only [conformantStep, hf] at hc
      exact of_decide_eq_true hc
    subst hb
    simp only []
    constructor
    · rw [trackedB_false_iff]
      constructor
      · intro e he
        exact hA e (mem_mapErase he)
      · intro e he
        rcases mem_mmInsert he with h3 | h3
        · subst h3
          intro hcov
          exact hA (p, b) (mapFind_some_mem hf) ⟨hcov.1, hcov.2⟩
        · exact hF e h3
    · simpa using h2

theorem tracked_preserved (σ : FixedMemoryResource) (x : Nat) (ops : List ArenaOp)
    (h1 : trackedB σ x = false) (h2 : x < σ.memory_pool_ + σ.current_offset_)
    (hc : conformantRun σ ops = true) :
    trackedB (runArena σ ops) x = false := by
  induction ops generalizing σ with
  | nil => simpa [runArena] using h1
  | cons op rest ih =>
    cases op with
    | alloc b a =>
      simp only [conformantRun, Bool.and_eq_true] at hc
      have ha : 0 < a := by
        have := hc.1
        simp only [conformantStep] at this
        exact of_decide_eq_true this
      obtain ⟨h1', h2'⟩ := tracked_alloc_step σ b a x ha h1 h2
      exact ih (do_allocate σ b a).2 h1' h2' hc.2
    | dealloc p b a =>
      simp only [conformantRun, Bool.and_eq_true] at hc
      obtain ⟨h1', h2'⟩ := tracked_dealloc_step σ p b a x hc.1 h1 h2
      exact ih (do_deallocate σ p b a).2 h1' h2' hc.2

end FixedMemoryResource

theorem queue_run_size_invariant {T : Type} (ops : List (Queue.Op T)) (q : Queue T) :
    (Queue.run q ops).size_ + Queue.countPopOk q ops = q.size_ + Queue.countPush ops := by
  induction ops generalizing q with
  | nil => simp [Queue.run, Queue.countPopOk, Queue.countPush]
  | cons op rest ih =>
    cases op with
    | push v =>
      simp only [Queue.run, Queue.countPopOk, Queue.countPush]
      have h := ih (q.push v)
      simp only [Queue.push] at h ⊢
      omega
    | pop =>
      simp only [Queue.run, Queue.countPopOk, Queue.countPush]
      by_cases h : q.size_ = 0
      · simp only [Queue.pop, if_pos h]
        exact ih q
      · simp only [Queue.pop, if_neg h]
        have h2 := ih { chain := q.chain.tail, size_ := q.size_ - 1 }
        simp only at h2
        omega

theorem arenaQueue_push_offset_mono {T : Type} (s a : Nat) (ha : 0 < a)
    (q : ArenaQueue T) (v : T) :
    q.arena.current_offset_ ≤ ((ArenaQueue.push s a q v).2).arena.current_offset_ := by
  unfold ArenaQueue.push
  have hm := FixedMemoryResource.do_allocate_offset_mono q.arena s a ha
  cases h : FixedMemoryResource.do_allocate q.arena s a with
  | mk r ar =>
    rw [h] at hm
    cases r <;> simpa using hm

theorem arenaQueue_pop_offset_eq {T : Type} (s a : Nat) (q : ArenaQueue T) :
    ((ArenaQueue.pop s a q).2).arena.current_offset_ = q.arena.current_offset_ := by
  unfold ArenaQueue.pop
  split
  · rfl
  · cases hch : q.chain with
    | nil => rfl
    | cons e rest =>
      cases e with
      | mk ptr v =>
        simp only []
        have hf := FixedMemoryResource.do_deallocate_frame q.arena ptr s a
        cases h : FixedMemoryResource.do_deallocate q.arena ptr s a with
        | mk r ar =>
          rw [h] at hf
          cases r <;> simpa using hf.1

theorem arenaQueue_run_offset_mono {T : Type} (s a : Nat) (ha : 0 < a)
    (q : ArenaQueue T) (ops : List (ArenaQueue.Op T)) :
    q.arena.current_offset_ ≤ ((ArenaQueue.run s a q ops)).arena.current_offset_ := by
  induction ops generalizing q with
  | nil => simp [ArenaQueue.run]
  | cons op rest ih =>
    cases op with
    | push v =>
      calc q.arena.current_offset_
          ≤ ((ArenaQueue.push s a q v).2).arena.current_offset_ :=
            arenaQueue_push_offset_mono s a ha q v
        _ ≤ _ := ih (ArenaQueue.push s a q v).2
    | pop =>
      calc q.arena.current_offset_
          = ((ArenaQueue.pop s a q).2).arena.current_offset_ :=
            (arenaQueue_pop_offset_eq s a q).symm
        _ ≤ _ := ih (ArenaQueue.pop s a q).2

/-- An arena call whose allocation request, if it is one, is for at
least one byte. -/
def ArenaOp.allocPos : ArenaOp → Prop
  | .alloc b _ => 1 ≤ b
  | .dealloc _ _ _ => True

namespace FixedMemoryResource

theorem do_allocate_movedFrom (σ : FixedMemoryResource) (b al : Nat) (hb : 1 ≤ b) :
    do_allocate (movedFrom σ) b al = (.error .outOfMemory, movedFrom σ) := by
  unfold do_allocate find_free_block movedFrom
  simp only [removeFirstFit]
  rw [if_pos (by omega)]

theorem do_deallocate_movedFrom (σ : FixedMemoryResource) (p b al : Nat) :
    do_deallocate (movedFrom σ) p b al = (.error .invalidFree, movedFrom σ) := by
  unfold do_deallocate movedFrom
  simp [mapFind]

theorem runArena_movedFrom (σ : FixedMemoryResource) (ops : List ArenaOp)
    (h : ∀ op ∈ ops, op.allocPos) :
    runArena (movedFrom σ) ops = movedFrom σ := by
  induction ops with
  | nil => rfl
  | cons op rest ih =>
    cases op with
    | alloc b a =>
      have hb : 1 ≤ b := h (.alloc b a) (List.mem_cons_self _ _)
      simp only [runArena, do_allocate_movedFrom σ b a hb]
      exact ih fun op' hop' => h op' (List.mem_cons_of_mem _ hop')
    | dealloc p b a =>
      simp only [runArena, do_deallocate_movedFrom σ p b a]
      exact ih fun op' hop' => h op' (List.mem_cons_of_mem _ hop')

end FixedMemoryResource

namespace FixedMemoryResource

theorem do_allocate_eq_reuse (σ : FixedMemoryResource) (b a p : Nat)
    (fb : List (Nat × Nat))
    (hre : removeFirstFit b a σ.free_blocks_ = some (p, fb)) :
    do_allocate σ b a =
      (.ok p,
       { σ with allocated_blocks_ := mapInsert p b σ.allocated_blocks_,
                free_blocks_ := fb }) := by
  unfold do_allocate find_free_block
  rw [hre]

theorem do_allocate_eq_bump_fail (σ : FixedMemoryResource) (b a : Nat)
    (hre : removeFirstFit b a σ.free_blocks_ = none)
    (hcap : (σ.current_offset_ + a - 1) / a * a + b > σ.pool_size_) :
    do_allocate σ b a = (.error .outOfMemory, σ) := by
  unfold do_allocate find_free_block
  simp only [hre]
  split
  · rfl
  · rename_i hc
    exfalso
    omega

theorem do_allocate_eq_bump_ok (σ : FixedMemoryResource) (b a : Nat)
    (hre : removeFirstFit b a σ.free_blocks_ = none)
    (hcap : ¬((σ.current_offset_ + a - 1) / a * a + b > σ.pool_size_)) :
    do_allocate σ b a =
      (.ok (σ.memory_pool_ + (σ.current_offset_ + a - 1) / a * a),
       { σ with
          allocated_blocks_ :=
            mapInsert (σ.memory_pool_ + (σ.current_offset_ + a - 1) / a * a) b
              σ.allocated_blocks_,
          current_offset_ := (σ.current_offset_ + a - 1) / a * a + b }) := by
  unfold do_allocate find_free_block
  simp only [hre]
  split
  · rename_i hc
    exfalso
    omega
  · rfl

end FixedMemoryResource

/-!
Claim theorems.
-/

/-- C4: whenever `allocate` fails with OutOfMemory, the arena's state —
offset, registry and free index — is identical before and after the
failed call, so a `stats()` snapshot taken before equals one taken
after. -/
theorem claim_C4_oom_state_unchanged (σ : FixedMemoryResource) (b a : Nat)
    (h : (FixedMemoryResource.do_allocate σ b a).1 = .error .outOfMemory) :
    (FixedMemoryResource.do_allocate σ b a).2 = σ ∧
    FixedMemoryResource.stats (FixedMemoryResource.do_allocate σ b a).2 =
      FixedMemoryResource.stats σ := by
  cases hr : removeFirstFit b a σ.free_blocks_ with
  | some pr =>
    cases pr with
    | mk p fb =>
      rw [FixedMemoryResource.do_allocate_eq_reuse σ b a p fb hr] at h
      simp at h
  | none =>
    by_cases hc : (σ.current_offset_ + a - 1) / a * a + b > σ.pool_size_
    · rw [FixedMemoryResource.do_allocate_eq_bump_fail σ b a hr hc]
      exact ⟨rfl, rfl⟩
    · rw [FixedMemoryResource.do_allocate_eq_bump_ok σ b a hr hc] at h
      simp at h

/-- Witness for C4: on an empty arena of capacity 0 a 1-byte request
fails with OutOfMemory and the state and stats are unchanged. -/
theorem claim_C4_witness :
    (FixedMemoryResource.do_allocate (FixedMemoryResource.mk0 0 0) 1 1).2 =
      FixedMemoryResource.mk0 0 0 ∧
    FixedMemoryResource.stats
        (FixedMemoryResource.do_allocate (FixedMemoryResource.mk0 0 0) 1 1).2 =
      FixedMemoryResource.stats (FixedMemoryResource.mk0 0 0) :=
  claim_C4_oom_state_unchanged (FixedMemoryResource.mk0 0 0) 1 1 rfl

/-- C6: running any sequence of push/pop calls from an empty queue,
`size()` equals the number of pushes minus the number of successful
pops; a pop on an empty queue fails with EmptyQueueError (and, the run
semantics leaving the state untouched on that error, does not change
the count). -/
theorem claim_C6_size_pushes_minus_pops (T : Type) (ops : List (Queue.Op T)) :
    (Queue.run (Queue.mk0 T) ops).size =
      Queue.countPush ops - Queue.countPopOk (Queue.mk0 T) ops ∧
    ∀ q : Queue T, q.size_ = 0 → Queue.pop q = .error .emptyQueue := by
  constructor
  · have h := queue_run_size_invariant ops (Queue.mk0 T)
    have hz : (Queue.mk0 T).size_ = 0 := rfl
    simp only [Queue.size]
    omega
  · intro q hq
    simp [Queue.pop, hq]

/-- Witness for C6 at a concrete call sequence and the empty queue. -/
theorem claim_C6_witness :
    (Queue.run (Queue.mk0 Nat) [.push 5, .pop, .pop]).size =
      Queue.countPush [Queue.Op.push 5, .pop, .pop] -
        Queue.countPopOk (Queue.mk0 Nat) [.push 5, .pop, .pop] ∧
    Queue.pop (Queue.mk0 Nat) = .error .emptyQueue :=
  ⟨(claim_C6_size_pushes_minus_pops Nat [.push 5, .pop, .pop]).1,
   (claim_C6_size_pushes_minus_pops Nat [.push 5, .pop, .pop]).2 (Queue.mk0 Nat) rfl⟩

/-- The queue holding `[10, 20, 30]` in push order. -/
def q102030 : Queue Nat := ((Queue.mk0 Nat).push 10 |>.push 20 |>.push 30)

/-- C7: iterating a queue holding `[10, 20, 30]` from `begin()`
dereferences 10, 20, 30 in order; the third advance reaches `end()`;
dereferencing at the end position fails with DereferenceError. -/
theorem claim_C7_iteration :
    Queue.Iterator.deref (Queue.begin q102030) = .ok 10 ∧
    Queue.Iterator.deref (Queue.Iterator.inc (Queue.begin q102030)) = .ok 20 ∧
    Queue.Iterator.deref
      (Queue.Iterator.inc (Queue.Iterator.inc (Queue.begin q102030))) = .ok 30 ∧
    Queue.Iterator.inc
      (Queue.Iterator.inc (Queue.Iterator.inc (Queue.begin q102030))) =
      Queue.«end» q102030 ∧
    Queue.Iterator.deref (T := Nat) (Queue.«end» q102030) =
      .error .dereferenceError :=
  ⟨rfl, rfl, rfl, rfl, rfl⟩

/-- C8: move-assignment between distinct queues keeps the destination's
allocator binding, takes `head_`/`tail_`/`size_` from the source, and
empties the source; when the two queues are bound to different memory
resources and the source is non-empty, the destination ends up owning a
node whose storage came from a resource other than its own binding. -/
theorem claim_C8_move_assign (T : Type) (dst src : QueueRes T)
    (horig : ∀ e ∈ src.chain, e.1 = src.alloc)
    (hne : src.alloc ≠ dst.alloc)
    (hnonempty : src.chain ≠ []) :
    (QueueRes.moveAssign dst src).1.alloc = dst.alloc ∧
    (QueueRes.moveAssign dst src).1.chain = src.chain ∧
    (QueueRes.moveAssign dst src).1.size_ = src.size_ ∧
    (QueueRes.moveAssign dst src).2.chain = [] ∧
    (QueueRes.moveAssign dst src).2.size_ = 0 ∧
    (QueueRes.moveAssign dst src).2.alloc = src.alloc ∧
    ∃ e ∈ (QueueRes.moveAssign dst src).1.chain,
      e.1 ≠ (QueueRes.moveAssign dst src).1.alloc := by
  refine ⟨rfl, rfl, rfl, rfl, rfl, rfl, ?_⟩
  cases hch : src.chain with
  | nil => exact absurd hch hnonempty
  | cons e rest =>
    refine ⟨e, ?_, ?_⟩
    · simp [QueueRes.moveAssign, hch]
    · rw [horig e (hch ▸ List.mem_cons_self _ _)]
      simpa [QueueRes.moveAssign] using hne

/-- Witness for C8: moving a one-node queue bound to resource 2 into a
queue bound to resource 1. -/
theorem claim_C8_witness :
    (QueueRes.moveAssign (⟨[], 0, 1⟩ : QueueRes Nat) ⟨[(2, 7)], 1, 2⟩).1.alloc = 1 ∧
    (QueueRes.moveAssign (⟨[], 0, 1⟩ : QueueRes Nat) ⟨[(2, 7)], 1, 2⟩).1.chain = [(2, 7)] ∧
    (QueueRes.moveAssign (⟨[], 0, 1⟩ : QueueRes Nat) ⟨[(2, 7)], 1, 2⟩).1.size_ = 1 ∧
    (QueueRes.moveAssign (⟨[], 0, 1⟩ : QueueRes Nat) ⟨[(2, 7)], 1, 2⟩).2.chain = [] ∧
    (QueueRes.moveAssign (⟨[], 0, 1⟩ : QueueRes Nat) ⟨[(2, 7)], 1, 2⟩).2.size_ = 0 ∧
    (QueueRes.moveAssign (⟨[], 0, 1⟩ : QueueRes Nat) ⟨[(2, 7)], 1, 2⟩).2.alloc = 2 ∧
    ∃ e ∈ (QueueRes.moveAssign (⟨[], 0, 1⟩ : QueueRes Nat) ⟨[(2, 7)], 1, 2⟩).1.chain,
      e.1 ≠ (QueueRes.moveAssign (⟨[], 0, 1⟩ : QueueRes Nat) ⟨[(2, 7)], 1, 2⟩).1.alloc :=
  claim_C8_move_assign Nat ⟨[], 0, 1⟩ ⟨[(2, 7)], 1, 2⟩ (by simp) (by decide) (by decide)

/-- C10: the moved-from `FixedMemoryResource` has a null pool, zero
capacity, zero offset and empty block maps; both move operations leave
the source in exactly that state; every allocate of at least one byte
on it fails with OutOfMemory leaving it unchanged, every deallocate on
it fails with InvalidFree leaving it unchanged, and hence any sequence
of such calls leaves it in the moved-from state. -/
theorem claim_C10_moved_from (σ : FixedMemoryResource) (b al : Nat) (hb : 1 ≤ b) :
    (FixedMemoryResource.movedFrom σ).memory_pool_ = 0 ∧
    (FixedMemoryResource.movedFrom σ).pool_size_ = 0 ∧
    (FixedMemoryResource.movedFrom σ).current_offset_ = 0 ∧
    (FixedMemoryResource.movedFrom σ).allocated_blocks_ = [] ∧
    (FixedMemoryResource.movedFrom σ).free_blocks_ = [] ∧
    FixedMemoryResource.moveConstruct σ = (σ, FixedMemoryResource.movedFrom σ) ∧
    (∀ dst, FixedMemoryResource.moveAssign dst σ = (σ, FixedMemoryResource.movedFrom σ)) ∧
    FixedMemoryResource.do_allocate (FixedMemoryResource.movedFrom σ) b al =
      (.error .outOfMemory, FixedMemoryResource.movedFrom σ) ∧
    (∀ p b2 a2, FixedMemoryResource.do_deallocate (FixedMemoryResource.movedFrom σ) p b2 a2 =
      (.error .invalidFree, FixedMemoryResource.movedFrom σ)) ∧
    (∀ ops : List ArenaOp, (∀ op ∈ ops, op.allocPos) →
      FixedMemoryResource.runArena (FixedMemoryResource.movedFrom σ) ops =
        FixedMemoryResource.movedFrom σ) :=
  ⟨rfl, rfl, rfl, rfl, rfl, rfl, fun _ => rfl,
   FixedMemoryResource.do_allocate_movedFrom σ b al hb,
   fun p b2 a2 => FixedMemoryResource.do_deallocate_movedFrom σ p b2 a2,
   fun ops h => FixedMemoryResource.runArena_movedFrom σ ops h⟩

/-- Witness for C10 at a concrete arena, request, and call sequence. -/
theorem claim_C10_witness :
    FixedMemoryResource.do_allocate
        (FixedMemoryResource.movedFrom (FixedMemoryResource.mk0 0 4096)) 1 8 =
      (.error .outOfMemory, FixedMemoryResource.movedFrom (FixedMemoryResource.mk0 0 4096)) ∧
    FixedMemoryResource.do_deallocate
        (FixedMemoryResource.movedFrom (FixedMemoryResource.mk0 0 4096)) 5 1 1 =
      (.error .invalidFree, FixedMemoryResource.movedFrom (FixedMemoryResource.mk0 0 4096)) ∧
    FixedMemoryResource.runArena
        (FixedMemoryResource.movedFrom (FixedMemoryResource.mk0 0 4096))
        [.alloc 1 8, .dealloc 5 1 1] =
      FixedMemoryResource.movedFrom (FixedMemoryResource.mk0 0 4096) :=
  ⟨(claim_C10_moved_from (FixedMemoryResource.mk0 0 4096) 1 8 (by decide)).2.2.2.2.2.2.2.1,
   (claim_C10_moved_from (FixedMemoryResource.mk0 0 4096) 1 8 (by decide)).2.2.2.2.2.2.2.2.1 5 1 1,
   (claim_C10_moved_from (FixedMemoryResource.mk0 0 4096) 1 8 (by decide)).2.2.2.2.2.2.2.2.2
     [.alloc 1 8, .dealloc 5 1 1] (by
       intro op hop
       simp only [List.mem_cons, List.mem_singleton] at hop
       rcases hop with h | h | h
       · subst h; exact (by decide : (1 : Nat) ≤ 1)
       · subst h; exact trivial
       · cases h)⟩

namespace FixedMemoryResource

theorem do_deallocate_eq_notfound (σ : FixedMemoryResource) (p b a : Nat)
    (h : mapFind p σ.allocated_blocks_ = none) :
    do_deallocate σ p b a = (.error .invalidFree, σ) := by
  unfold do_deallocate
  rw [h]

theorem do_deallocate_eq_found (σ : FixedMemoryResource) (p b a sz : Nat)
    (h : mapFind p σ.allocated_blocks_ = some sz) :
    do_deallocate σ p b a =
      (.ok (),
       { σ with allocated_blocks_ := mapErase p σ.allocated_blocks_,
                free_blocks_ := mmInsert b p σ.free_blocks_ }) := by
  unfold do_deallocate
  rw [h]

end FixedMemoryResource

/-- The arena state reached by `allocate(8, 1)` on a fresh arena of
capacity 100 based at address 0: the bump path records a live entry of
size 8 at address 0 and sets the offset to 8. -/
def demoArena : FixedMemoryResource :=
  (FixedMemoryResource.do_allocate (FixedMemoryResource.mk0 0 100) 8 1).2

/-- Counterexample to C2: the registry records size 8 for address 0, yet
`deallocate(0, 4, 1)` — whose size argument differs from the recorded
size — succeeds instead of failing with InvalidFree; the source never
compares the two sizes. -/
theorem claim_C2_counterexample :
    mapFind 0 demoArena.allocated_blocks_ = some 8 ∧
    (8 : Nat) ≠ 4 ∧
    (FixedMemoryResource.do_deallocate demoArena 0 4 1).1 = .ok () :=
  ⟨rfl, by decide, rfl⟩

/-- C2 (amended): `deallocate(address, size, alignment)` fails with
InvalidFree exactly when `address` is absent from the registry — the
size argument is never compared with the recorded size; on failure the
state is unchanged, and on success the entry is removed from the
registry and `(size argument, address)` is inserted into the free
index. -/
theorem claim_C2_deallocate_amended (σ : FixedMemoryResource) (p b al : Nat)
    (hwf : List.Pairwise (fun x y : Nat × Nat => x.1 < y.1) σ.allocated_blocks_) :
    ((FixedMemoryResource.do_deallocate σ p b al).1 = .error .invalidFree ↔
      mapFind p σ.allocated_blocks_ = none) ∧
    (mapFind p σ.allocated_blocks_ = none →
      (FixedMemoryResource.do_deallocate σ p b al).2 = σ) ∧
    (∀ sz, mapFind p σ.allocated_blocks_ = some sz →
      (FixedMemoryResource.do_deallocate σ p b al).1 = .ok () ∧
      mapFind p ((FixedMemoryResource.do_deallocate σ p b al).2).allocated_blocks_ = none ∧
      (b, p) ∈ ((FixedMemoryResource.do_deallocate σ p b al).2).free_blocks_) := by
  cases hf : mapFind p σ.allocated_blocks_ with
  | none =>
    rw [FixedMemoryResource.do_deallocate_eq_notfound σ p b al hf]
    exact ⟨by simp, fun _ => rfl, fun sz hsz => Option.noConfusion hsz⟩
  | some sz0 =>
    rw [FixedMemoryResource.do_deallocate_eq_found σ p b al sz0 hf]
    refine ⟨by simp, fun hn => Option.noConfusion hn, fun sz hsz => ?_⟩
    exact ⟨rfl, mapFind_mapErase_self hwf, self_mem_mmInsert b p σ.free_blocks_⟩

/-- Witness for the amended C2 on `demoArena`. -/
theorem claim_C2_witness :
    (FixedMemoryResource.do_deallocate demoArena 0 8 1).1 = .ok () ∧
    mapFind 0 ((FixedMemoryResource.do_deallocate demoArena 0 8 1).2).allocated_blocks_ = none ∧
    (8, 0) ∈ ((FixedMemoryResource.do_deallocate demoArena 0 8 1).2).free_blocks_ :=
  (claim_C2_deallocate_amended demoArena 0 8 1 (by decide)).2.2 8 rfl

/-- Counterexample to C3: address 0 was returned by bump allocation and
is in the registry, yet after `deallocate(0, 8, 1)` succeeds the
registry no longer holds any entry for address 0 — the source erases
the entry rather than flipping a free flag. -/
theorem claim_C3_counterexample :
    mapFind 0 demoArena.allocated_blocks_ = some 8 ∧
    (FixedMemoryResource.do_deallocate demoArena 0 8 1).1 = .ok () ∧
    mapFind 0 ((FixedMemoryResource.do_deallocate demoArena 0 8 1).2).allocated_blocks_ = none :=
  ⟨rfl, rfl, rfl⟩

/-- C3 (amended): a successful deallocation removes the address's entry
from the live-block registry and records `(size, address)` in the free
index instead; the block's bytes remain tracked by the arena (through
the free index, which retains the size as its key — alignment is never
recorded anywhere), and the offset is untouched. -/
theorem claim_C3_dealloc_moves_entry (σ : FixedMemoryResource) (p sz al : Nat)
    (hwf : List.Pairwise (fun x y : Nat × Nat => x.1 < y.1) σ.allocated_blocks_)
    (hfind : mapFind p σ.allocated_blocks_ = some sz) :
    (FixedMemoryResource.do_deallocate σ p sz al).1 = .ok () ∧
    mapFind p ((FixedMemoryResource.do_deallocate σ p sz al).2).allocated_blocks_ = none ∧
    (sz, p) ∈ ((FixedMemoryResource.do_deallocate σ p sz al).2).free_blocks_ ∧
    ((FixedMemoryResource.do_deallocate σ p sz al).2).current_offset_ = σ.current_offset_ ∧
    ∀ x, p ≤ x → x < p + sz →
      FixedMemoryResource.trackedB (FixedMemoryResource.do_deallocate σ p sz al).2 x = true := by
  rw [FixedMemoryResource.do_deallocate_eq_found σ p sz al sz hfind]
  refine ⟨rfl, mapFind_mapErase_self hwf, self_mem_mmInsert sz p σ.free_blocks_, rfl, ?_⟩
  intro x hx1 hx2
  simp only [FixedMemoryResource.trackedB, Bool.or_eq_true, List.any_eq_true]
  right
  refine ⟨(sz, p), self_mem_mmInsert sz p σ.free_blocks_, ?_⟩
  simp only [Bool.and_eq_true, decide_eq_true_eq]
  omega

/-- Witness for the amended C3 on `demoArena`, checking byte 3 of the
freed block stays tracked. -/
theorem claim_C3_witness :
    (FixedMemoryResource.do_deallocate demoArena 0 8 1).2.current_offset_ =
      demoArena.current_offset_ ∧
    (8, 0) ∈ ((FixedMemoryResource.do_deallocate demoArena 0 8 1).2).free_blocks_ ∧
    FixedMemoryResource.trackedB (FixedMemoryResource.do_deallocate demoArena 0 8 1).2 3 = true :=
  ⟨(claim_C3_dealloc_moves_entry demoArena 0 8 1 (by decide) rfl).2.2.2.1,
   (claim_C3_dealloc_moves_entry demoArena 0 8 1 (by decide) rfl).2.2.1,
   (claim_C3_dealloc_moves_entry demoArena 0 8 1 (by decide) rfl).2.2.2.2 3
     (by decide) (by decide)⟩

/-- An empty arena-backed queue over a fresh 4096-byte arena based at an
address that is a multiple of the node alignment (operator new returns
suitably aligned storage; 0 stands for such a base). -/
def aq0 : ArenaQueue Nat :=
  { arena := FixedMemoryResource.mk0 0 4096, chain := [], size_ := 0 }

/-- `aq0` after pushing 5 integers, each node taking 16 bytes with
alignment 8 (a `Node<int>` holding an `int` and a pointer). -/
def aq1 : ArenaQueue Nat :=
  ArenaQueue.run 16 8 aq0 [.push 1, .push 2, .push 3, .push 4, .push 5]

/-- `aq1` after popping 3 elements and pushing 3 new integers. -/
def aq2 : ArenaQueue Nat :=
  ArenaQueue.run 16 8 aq1 [.pop, .pop, .pop, .push 6, .push 7, .push 8]

/-- C5: on a 4096-byte arena with 16-byte nodes, after 5 pushes the
offset is `O1 = 80`; popping 3 and pushing 3 leaves the offset equal to
`O1`. In general the offset never decreases across any push/pop
sequence, and an allocation satisfied by reusing a free block leaves
the offset unchanged. -/
theorem claim_C5_reuse_offset_stability :
    (aq1.arena.current_offset_ = 80 ∧
     aq2.arena.current_offset_ = aq1.arena.current_offset_) ∧
    (∀ (T : Type) (s a : Nat), 0 < a →
      ∀ (q : ArenaQueue T) (ops : List (ArenaQueue.Op T)),
        q.arena.current_offset_ ≤ ((ArenaQueue.run s a q ops)).arena.current_offset_) ∧
    (∀ (σ : FixedMemoryResource) (b al : Nat),
      (FixedMemoryResource.find_free_block σ b al).1.isSome = true →
      ((FixedMemoryResource.do_allocate σ b al).2).current_offset_ = σ.current_offset_) := by
  refine ⟨⟨rfl, rfl⟩, ?_, ?_⟩
  · intro T s a ha q ops
    exact arenaQueue_run_offset_mono s a ha q ops
  · intro σ b al h
    exact FixedMemoryResource.do_allocate_reuse_offset σ b al h

/-- Witness for C5: the monotonicity part at the concrete 5-push
sequence and the reuse part on the freed `demoArena` block. -/
theorem claim_C5_witness :
    aq0.arena.current_offset_ ≤ aq1.arena.current_offset_ ∧
    ((FixedMemoryResource.do_allocate
        (FixedMemoryResource.do_deallocate demoArena 0 8 1).2 8 1).2).current_offset_ =
      ((FixedMemoryResource.do_deallocate demoArena 0 8 1).2).current_offset_ :=
  ⟨claim_C5_reuse_offset_stability.2.1 Nat 16 8 (by decide) aq0
     [.push 1, .push 2, .push 3, .push 4, .push 5],
   claim_C5_reuse_offset_stability.2.2
     (FixedMemoryResource.do_deallocate demoArena 0 8 1).2 8 1 rfl⟩

/-- C9: when `allocate(bytes, align)` is satisfied by reusing a free
block at address `p` recorded with a (possibly larger) size, the
registry re-records that address with the new size `bytes`; a
subsequent `deallocate(p, bytes, _)` succeeds and re-inserts the block
into the free index under `bytes`; and any byte `x` beyond `p + bytes`
that was tracked only through the reused free entry stays untracked
across every further contract-conformant call sequence. -/
theorem claim_C9_reuse_shrinks_tracking (σ : FixedMemoryResource)
    (bytes align p : Nat) (fb : List (Nat × Nat))
    (hre : removeFirstFit bytes align σ.free_blocks_ = some (p, fb)) :
    mapFind p ((FixedMemoryResource.do_allocate σ bytes align).2).allocated_blocks_ = some bytes ∧
    ((FixedMemoryResource.do_deallocate
        (FixedMemoryResource.do_allocate σ bytes align).2 p bytes align).1 = .ok () ∧
     (bytes, p) ∈ ((FixedMemoryResource.do_deallocate
        (FixedMemoryResource.do_allocate σ bytes align).2 p bytes align).2).free_blocks_) ∧
    (∀ x, p + bytes ≤ x →
      x < σ.memory_pool_ + σ.current_offset_ →
      FixedMemoryResource.trackedB { σ with free_blocks_ := fb } x = false →
      ∀ ops : List ArenaOp,
        FixedMemoryResource.conformantRun (FixedMemoryResource.do_allocate σ bytes align).2 ops = true →
        FixedMemoryResource.trackedB
          (FixedMemoryResource.runArena (FixedMemoryResource.do_allocate σ bytes align).2 ops) x = false) := by
  have hall := FixedMemoryResource.do_allocate_eq_reuse σ bytes align p fb hre
  have hfind : mapFind p ((FixedMemoryResource.do_allocate σ bytes align).2).allocated_blocks_ = some bytes := by
    rw [hall]
    exact mapFind_mapInsert_self p bytes σ.allocated_blocks_
  refine ⟨hfind, ?_, ?_⟩
  · rw [FixedMemoryResource.do_deallocate_eq_found _ p bytes align bytes hfind]
    exact ⟨rfl, self_mem_mmInsert bytes p _⟩
  · intro x hx1 hx2 hx3 ops hc
    have hx3' := (FixedMemoryResource.trackedB_false_iff _ x).mp hx3
    apply FixedMemoryResource.tracked_preserved _ x ops _ _ hc
    · rw [hall, FixedMemoryResource.trackedB_false_iff]
      constructor
      · intro e he
        rcases mem_mapInsert he with h3 | h3
        · subst h3
          intro hcov
          have := hcov.2
          simp only [] at this hx1
          omega
        · exact hx3'.1 e h3
      · intro e he
        exact hx3'.2 e he
    · rw [hall]
      simpa using hx2

/-- Witness for C9: a free block of size 8 at address 0 is reused for a
4-byte request; surplus byte 6 stays untracked over a further
conformant allocate/deallocate sequence. -/
theorem claim_C9_witness :
    mapFind 0 ((FixedMemoryResource.do_allocate
        (FixedMemoryResource.do_deallocate demoArena 0 8 1).2 4 1).2).allocated_blocks_ = some 4 ∧
    FixedMemoryResource.trackedB
      (FixedMemoryResource.runArena
        (FixedMemoryResource.do_allocate
          (FixedMemoryResource.do_deallocate demoArena 0 8 1).2 4 1).2
        [.alloc 16 8, .dealloc 0 4 1]) 6 = false :=
  ⟨(claim_C9_reuse_shrinks_tracking
      (FixedMemoryResource.do_deallocate demoArena 0 8 1).2 4 1 0 [] rfl).1,
   (claim_C9_reuse_shrinks_tracking
      (FixedMemoryResource.do_deallocate demoArena 0 8 1).2 4 1 0 [] rfl).2.2 6
     (by decide) (by decide) (by decide) [.alloc 16 8, .dealloc 0 4 1] (by decide)⟩

theorem fitsEntry_true_iff (b a : Nat) (e : Nat × Nat) :
    fitsEntry b a e = true ↔ (b ≤ e.1 ∧ e.2 % a = 0) := by
  simp [fitsEntry]

theorem fitsEntry_false_iff (b a : Nat) (e : Nat × Nat) :
    fitsEntry b a e = false ↔ ¬(b ≤ e.1 ∧ e.2 % a = 0) := by
  rw [← Bool.not_eq_true, fitsEntry_true_iff]

/-- C1: `allocate(size, alignment)` first searches the free index for
the smallest free entry of recorded size ≥ `size` whose address is a
multiple of `alignment` (misaligned entries are skipped, never
relocated); if one exists it is removed from the free index, re-recorded
live, and its address is returned, with the offset untouched. If no
entry fits, the bump path computes `aligned_offset` as the offset
rounded up to a multiple of `alignment`; it fails with OutOfMemory,
leaving the state unchanged, when `aligned_offset + size` exceeds the
capacity, and otherwise records a new live entry at `aligned_offset`,
sets the offset to `aligned_offset + size`, and returns that address. -/
theorem claim_C1_allocate_contract (σ : FixedMemoryResource) (bytes align : Nat)
    (ha : 0 < align)
    (hsorted : List.Pairwise (fun x y : Nat × Nat => x.1 ≤ y.1) σ.free_blocks_) :
    ((∃ e ∈ σ.free_blocks_, fitsEntry bytes align e = true) →
      ∃ p s, (FixedMemoryResource.do_allocate σ bytes align).1 = .ok p ∧
        (s, p) ∈ σ.free_blocks_ ∧ bytes ≤ s ∧ p % align = 0 ∧
        (∀ e ∈ σ.free_blocks_, fitsEntry bytes align e = true → s ≤ e.1) ∧
        (∃ l1 l3, σ.free_blocks_ = l1 ++ (s, p) :: l3 ∧
          (FixedMemoryResource.do_allocate σ bytes align).2 =
            { σ with
                allocated_blocks_ := mapInsert p bytes σ.allocated_blocks_,
                free_blocks_ := l1 ++ l3 }) ∧
        mapFind p ((FixedMemoryResource.do_allocate σ bytes align).2).allocated_blocks_ = some bytes ∧
        ((FixedMemoryResource.do_allocate σ bytes align).2).current_offset_ = σ.current_offset_) ∧
    ((∀ e ∈ σ.free_blocks_, fitsEntry bytes align e = false) →
      (roundUpTo σ.current_offset_ align + bytes > σ.pool_size_ →
        FixedMemoryResource.do_allocate σ bytes align = (.error .outOfMemory, σ)) ∧
      (roundUpTo σ.current_offset_ align + bytes ≤ σ.pool_size_ →
        FixedMemoryResource.do_allocate σ bytes align =
          (.ok (σ.memory_pool_ + roundUpTo σ.current_offset_ align),
           { σ with
              allocated_blocks_ :=
                mapInsert (σ.memory_pool_ + roundUpTo σ.current_offset_ align) bytes
                  σ.allocated_blocks_,
              current_offset_ := roundUpTo σ.current_offset_ align + bytes }))) := by
  constructor
  · intro hex
    have hex' : ∃ e ∈ σ.free_blocks_, bytes ≤ e.1 ∧ e.2 % align = 0 := by
      obtain ⟨e, he, hf⟩ := hex
      exact ⟨e, he, (fitsEntry_true_iff bytes align e).mp hf⟩
    obtain ⟨p, fb, hre⟩ := removeFirstFit_isSome_of_exists hex'
    obtain ⟨l1, s, l3, hsplit, hfb, hbs, hpa, hnf⟩ := removeFirstFit_some hre
    have hall := FixedMemoryResource.do_allocate_eq_reuse σ bytes align p fb hre
    refine ⟨p, s, by rw [hall], ?_, hbs, hpa, ?_, ?_, ?_, ?_⟩
    · rw [hsplit]
      exact List.mem_append_right _ (List.mem_cons_self _ _)
    · intro e he hfit
      have hfit' := (fitsEntry_true_iff bytes align e).mp hfit
      rw [hsplit] at he hsorted
      rcases List.mem_append.mp he with h1 | h1
      · exact absurd hfit' (hnf e h1)
      · rcases List.mem_cons.mp h1 with h2 | h2
        · rw [h2]
        · have hp2 := (List.pairwise_append.mp hsorted).2.1
          exact (List.pairwise_cons.mp hp2).1 e h2
    · exact ⟨l1, l3, hsplit, by rw [hall, hfb]⟩
    · rw [hall]
      exact mapFind_mapInsert_self p bytes σ.allocated_blocks_
    · rw [hall]
  · intro hforall
    have hnone : removeFirstFit bytes align σ.free_blocks_ = none := by
      rw [removeFirstFit_none_iff]
      intro e he
      exact (fitsEntry_false_iff bytes align e).mp (hforall e he)
    have hru := bump_aligned_eq σ.current_offset_ align ha
    constructor
    · intro hover
      apply FixedMemoryResource.do_allocate_eq_bump_fail σ bytes align hnone
      rw [hru]
      exact hover
    · intro hle
      have hcap : ¬((σ.current_offset_ + align - 1) / align * align + bytes > σ.pool_size_) := by
        rw [hru]
        omega
      rw [FixedMemoryResource.do_allocate_eq_bump_ok σ bytes align hnone hcap, hru]

/-- Witness for C1: a reuse hit on a one-entry free index, and both
bump outcomes on an empty free index. -/
theorem claim_C1_witness :
    (∃ p s, (FixedMemoryResource.do_allocate
        (FixedMemoryResource.do_deallocate demoArena 0 8 1).2 4 1).1 = .ok p ∧
      (s, p) ∈ ((FixedMemoryResource.do_deallocate demoArena 0 8 1).2).free_blocks_ ∧
      4 ≤ s ∧ p % 1 = 0 ∧
      (∀ e ∈ ((FixedMemoryResource.do_deallocate demoArena 0 8 1).2).free_blocks_,
        fitsEntry 4 1 e = true → s ≤ e.1) ∧
      (∃ l1 l3, ((FixedMemoryResource.do_deallocate demoArena 0 8 1).2).free_blocks_ =
          l1 ++ (s, p) :: l3 ∧
        (FixedMemoryResource.do_allocate
            (FixedMemoryResource.do_deallocate demoArena 0 8 1).2 4 1).2 =
          { (FixedMemoryResource.do_deallocate demoArena 0 8 1).2 with
              allocated_blocks_ :=
                mapInsert p 4
                  ((FixedMemoryResource.do_deallocate demoArena 0 8 1).2).allocated_blocks_,
              free_blocks_ := l1 ++ l3 }) ∧
      mapFind p ((FixedMemoryResource.do_allocate
          (FixedMemoryResource.do_deallocate demoArena 0 8 1).2 4 1).2).allocated_blocks_ =
        some 4 ∧
      ((FixedMemoryResource.do_allocate
          (FixedMemoryResource.do_deallocate demoArena 0 8 1).2 4 1).2).current_offset_ =
        ((FixedMemoryResource.do_deallocate demoArena 0 8 1).2).current_offset_) ∧
    FixedMemoryResource.do_allocate (FixedMemoryResource.mk0 0 100) 101 1 =
      (.error .outOfMemory, FixedMemoryResource.mk0 0 100) :=
  ⟨(claim_C1_allocate_contract (FixedMemoryResource.do_deallocate demoArena 0 8 1).2 4 1
      (by decide) (by decide)).1 ⟨(8, 0), by decide, by decide⟩,
   (claim_C1_allocate_contract (FixedMemoryResource.mk0 0 100) 101 1
      (by decide) (List.Pairwise.nil)).2 (by decide) |>.1 (by decide)⟩
